import Mathlib

/-!
Verification development for the Qualifind lead-generation CRM.

The definitions below are a shallow embedding of the TypeScript sources:
`src/types.ts` (data model), `src/App.tsx` (lead scoring, batch enrichment,
load-more deduplication, call logging), `src/components/CallWizard.tsx`
(call-outcome state machine and final save), `src/services/geminiService.ts`
(per-lead enrichment merge), and the project-view export handler
(`src/unnamed/part_001`, `handleExport`).

JavaScript conventions are modelled explicitly:
- `string | null | undefined` becomes `Option String`; JS truthiness of a
  string value (`null`, `undefined` and `""` are falsy) is `jsTruthyS`.
- `a || b` on strings becomes `jsOr` / `jsOrStr`.
- optional numbers become `Option Int` / `Option Rat`; `x || 0` on a number
  is `Option.getD x 0` (the only falsy finite number is `0`, which `|| 0`
  maps to `0` again).
External AI calls are modelled as oracles supplied as explicit arguments.
-/

/-- JS truthiness of a nullable string: `null`/`undefined` and `""` are falsy. -/
def jsTruthyS : Option String → Bool
  | none => false
  | some s => s ≠ ""

/-- JS `a || b` for nullable strings. -/
def jsOr (a b : Option String) : Option String :=
  if jsTruthyS a then a else b

/-- JS `a || b` where the fallback is a plain (non-null) string. -/
def jsOrStr (a : Option String) (b : String) : String :=
  match a with
  | none => b
  | some s => if s = "" then b else s

/-- `CallAnalysis` from `src/types.ts` (plus the `userNotes` field that
`handleFinalSave` in `CallWizard.tsx` writes into the final analysis). -/
structure CallAnalysis where
  callScore : Int
  scriptAdherence : Int
  confidence : String
  sentiment : String
  keyTakeaways : List String
  userNotes : Option String
  deriving Repr, DecidableEq

/-- `CallLog` from `src/types.ts`. -/
structure CallLog where
  id : String
  timestamp : String
  outcome : String
  notes : Option String
  recordingUrl : Option String
  recordingStatus : Option String
  appointmentDate : Option String
  analysis : Option CallAnalysis
  deriving Repr, DecidableEq

/-- `Lead` from `src/types.ts`.  Status, confidence and email-status enums are
kept as the string literals the code compares against.  `isEnriching` is the
transient in-flight flag (absent/undefined is falsy, modelled as `false`). -/
structure Lead where
  id : String
  name : String
  category : String
  address : String
  website : Option String
  phone : Option String
  email : Option String
  emailStatus : Option String
  ceo : Option String
  companyDescription : Option String
  status : String
  confidence : String
  leadScore : Option Int
  sourceUrl : Option String
  notes : String
  rating : Option Rat
  reviewCount : Option Int
  isEnriching : Bool
  callLogs : List CallLog
  lastCallResult : Option String
  appointmentDate : Option String
  deriving Repr, DecidableEq

/-- `Project.filters` from `src/types.ts`. -/
structure ProjectFilters where
  minRating : Rat
  minReviews : Int
  mustHaveWebsite : Bool
  deriving Repr, DecidableEq

/-- `Project` from `src/types.ts` (the fields the modelled operations read). -/
structure Project where
  id : String
  name : String
  industry : String
  location : String
  filters : ProjectFilters
  leads : List Lead
  status : String
  deriving Repr, DecidableEq

/-- `ContactList` from `src/types.ts`. -/
structure ContactList where
  id : String
  name : String
  leads : List Lead
  stage : Option String
  deriving Repr, DecidableEq

/-- A lead with every nullable field null, every string field empty, in status
`"New"`: the "otherwise-empty lead" of the scoring property. -/
def emptyLead : Lead :=
  { id := "", name := "", category := "", address := "", website := none,
    phone := none, email := none, emailStatus := none, ceo := none,
    companyDescription := none, status := "New", confidence := "Low",
    leadScore := none, sourceUrl := none, notes := "", rating := none,
    reviewCount := none, isEnriching := false, callLogs := [],
    lastCallResult := none, appointmentDate := none }

/-- `calculateLeadScore` from `src/App.tsx` (lines 94-108).  Each `if` guard is
the JS truthiness of the corresponding field; the source-credibility bonus
requires a truthy `sourceUrl` different from `'Manual'`, and the rating bonus
requires a truthy rating that is `>= 4.0`. -/
def calculateLeadScore (lead : Lead) : Int :=
  let score : Int := 0
  let score := if jsTruthyS lead.email then score + 25 else score
  let score := if jsTruthyS lead.website then score + 25 else score
  let score := if jsTruthyS lead.ceo then score + 15 else score
  let score := if jsTruthyS lead.phone then score + 15 else score
  let score :=
    if jsTruthyS lead.sourceUrl && (lead.sourceUrl ≠ some "Manual" : Bool) then
      score + 10
    else score
  let score :=
    match lead.rating with
    | some r => if r ≠ 0 && (4 ≤ r : Bool) then score + 10 else score
    | none => score
  min 100 score

/-- The claim's "rating ≥ 4.0" bonus guard, as a Boolean on the optional
rating field. -/
def ratingGe4 : Option Rat → Bool
  | some r => 4 ≤ r
  | none => false

/-- The code's rating guard `lead.rating && lead.rating >= 4.0` coincides with
the claim's plain `rating >= 4.0` (a rating `≥ 4` is in particular truthy). -/
theorem ratingGuard (r : Rat) :
    ((r ≠ 0 : Bool) && (4 ≤ r : Bool)) = ratingGe4 (some r) := by
  simp only [ratingGe4]
  rcases le_or_lt 4 r with h | h
  · have hne : r ≠ 0 := by
      intro h0
      rw [h0] at h
      norm_num at h
    simp [h, hne]
  · simp [not_le.mpr h]

/-- A guarded accumulation step equals adding a guarded increment. -/
theorem iteAdd (b : Bool) (x k : Int) :
    (if b then x + k else x) = x + (if b then k else 0) := by
  cases b <;> simp

/-- A guarded nonnegative increment is nonnegative. -/
theorem iteNonneg (b : Bool) (k : Int) (hk : 0 ≤ k) : 0 ≤ (if b then k else 0) := by
  cases b <;> simp [hk]

/-- `calculateLeadScore` in closed form: the clamped sum of the documented
field weights. -/
theorem calculateLeadScore_eq (lead : Lead) :
    calculateLeadScore lead =
      min 100 ((if jsTruthyS lead.email then (25 : Int) else 0)
        + (if jsTruthyS lead.website then 25 else 0)
        + (if jsTruthyS lead.ceo then 15 else 0)
        + (if jsTruthyS lead.phone then 15 else 0)
        + (if jsTruthyS lead.sourceUrl && (lead.sourceUrl ≠ some "Manual" : Bool) then 10 else 0)
        + (if ratingGe4 lead.rating then 10 else 0)) := by
  simp only [calculateLeadScore]
  rcases hr : lead.rating with _ | r
  · simp only [hr, ratingGe4, Bool.false_eq_true, if_false]
    rw [iteAdd, iteAdd, iteAdd, iteAdd, iteAdd]
    ring_nf
  · simp only [hr, ratingGuard]
    rw [iteAdd, iteAdd, iteAdd, iteAdd, iteAdd, iteAdd]
    ring_nf

/-- C3: `calculateLeadScore` is the clamped weighted sum of the documented
weights, always lies in `[0, 100]`, and adding any single one of email,
website, CEO or phone to the otherwise-empty lead raises the score by exactly
that field's weight. -/
theorem C3_lead_score_weighted_sum (lead : Lead) (e w c p : String)
    (he : e ≠ "") (hw : w ≠ "") (hc : c ≠ "") (hp : p ≠ "") :
    calculateLeadScore lead =
      min 100 ((if jsTruthyS lead.email then (25 : Int) else 0)
        + (if jsTruthyS lead.website then 25 else 0)
        + (if jsTruthyS lead.ceo then 15 else 0)
        + (if jsTruthyS lead.phone then 15 else 0)
        + (if jsTruthyS lead.sourceUrl && (lead.sourceUrl ≠ some "Manual" : Bool) then 10 else 0)
        + (if ratingGe4 lead.rating then 10 else 0))
    ∧ 0 ≤ calculateLeadScore lead ∧ calculateLeadScore lead ≤ 100
    ∧ calculateLeadScore emptyLead = 0
    ∧ calculateLeadScore { emptyLead with email := some e } = calculateLeadScore emptyLead + 25
    ∧ calculateLeadScore { emptyLead with website := some w } = calculateLeadScore emptyLead + 25
    ∧ calculateLeadScore { emptyLead with ceo := some c } = calculateLeadScore emptyLead + 15
    ∧ calculateLeadScore { emptyLead with phone := some p } = calculateLeadScore emptyLead + 15 := by
  refine ⟨calculateLeadScore_eq lead, ?_, ?_, by rfl, ?_, ?_, ?_, ?_⟩
  · rw [calculateLeadScore_eq]
    refine le_min (by norm_num) ?_
    refine add_nonneg (add_nonneg (add_nonneg (add_nonneg (add_nonneg ?_ ?_) ?_) ?_) ?_) ?_ <;>
      exact iteNonneg _ _ (by norm_num)
  · rw [calculateLeadScore_eq]
    exact min_le_left _ _
  · rw [calculateLeadScore_eq, calculateLeadScore_eq]
    simp [emptyLead, jsTruthyS, he, ratingGe4]
  · rw [calculateLeadScore_eq, calculateLeadScore_eq]
    simp [emptyLead, jsTruthyS, hw, ratingGe4]
  · rw [calculateLeadScore_eq, calculateLeadScore_eq]
    simp [emptyLead, jsTruthyS, hc, ratingGe4]
  · rw [calculateLeadScore_eq, calculateLeadScore_eq]
    simp [emptyLead, jsTruthyS, hp, ratingGe4]

/-- Witness for C3 at a concrete lead and concrete added field values. -/
theorem C3_lead_score_weighted_sum_witness :
    calculateLeadScore emptyLead = min 100 (0 + 0 + 0 + 0 + 0 + 0)
    ∧ calculateLeadScore { emptyLead with email := some "a@b.c" } =
        calculateLeadScore emptyLead + 25 := by
  have h := C3_lead_score_weighted_sum emptyLead "a@b.c" "w" "c" "p"
    (by decide) (by decide) (by decide) (by decide)
  refine ⟨?_, h.2.2.2.2.1⟩
  have h1 := h.1
  simpa [emptyLead, jsTruthyS] using h1

/-! ## Call wizard state machine (`src/components/CallWizard.tsx`)

The wizard's UI state relevant to the outcome flow: the current step, the
appointment date/time inputs (editable only while the APPOINTMENT step is
rendered), the selected outcome, and an instrumentation counter recording how
many `generateCallAnalysis` requests `handleOutcomeSelection` has issued. -/

/-- The `CallStep` union type of `CallWizard.tsx`. -/
inductive CallStep
  | CONNECT
  | REACHED_WHOM
  | GATEKEEPER_PATH
  | DM_PATH
  | INTEREST_SUBPATH
  | APPOINTMENT
  | SUMMARY
  deriving Repr, DecidableEq

/-- The wizard component state touched by the outcome flow. -/
structure WizardState where
  callStep : CallStep
  appointmentDate : String
  appointmentTime : String
  selectedOutcome : String
  analysisRequests : Nat
  deriving Repr, DecidableEq

/-- Initial state on mount: `useState('CONNECT')`, empty date/time/outcome,
no analysis request issued yet. -/
def initWizard : WizardState :=
  { callStep := .CONNECT, appointmentDate := "", appointmentTime := "",
    selectedOutcome := "", analysisRequests := 0 }

/-- The button presses and input edits of the outcome flow.  `setDate` /
`setTime` are the date and time inputs of the APPOINTMENT step; `backToFlow`
is the "Back to Flow" button of the SUMMARY step. -/
inductive WizardEvent
  | connectYes
  | connectNoAnswer
  | reachedGatekeeper
  | reachedDecisionMaker
  | gatekeeperTransferred
  | gatekeeperBlocked
  | dmInterested
  | dmNotInterested
  | interestBookMeeting
  | interestSendInfo
  | appointmentConfirm
  | appointmentCancel
  | setDate (d : String)
  | setTime (t : String)
  | backToFlow
  deriving Repr, DecidableEq

/-- `handleOutcomeSelection` (CallWizard.tsx lines 76-93): record the outcome,
move to SUMMARY, and issue one `generateCallAnalysis` request. -/
def handleOutcomeSelection (outcome : String) (s : WizardState) : WizardState :=
  { s with selectedOutcome := outcome, callStep := .SUMMARY,
           analysisRequests := s.analysisRequests + 1 }

/-- One step of the wizard: each event fires only when its button/input is
rendered for the current step (CallWizard.tsx render blocks, lines 237-458);
the "Confirm Booking" button is disabled while `appointmentDate` is empty
(`disabled=\x7b!appointmentDate\x7d`, line 446).  Events whose control is not
on screen leave the state unchanged. -/
def stepWizard (s : WizardState) (e : WizardEvent) : WizardState :=
  match s.callStep, e with
  | .CONNECT, .connectYes => { s with callStep := .REACHED_WHOM }
  | .CONNECT, .connectNoAnswer => handleOutcomeSelection "No Answer" s
  | .REACHED_WHOM, .reachedGatekeeper => { s with callStep := .GATEKEEPER_PATH }
  | .REACHED_WHOM, .reachedDecisionMaker => { s with callStep := .DM_PATH }
  | .GATEKEEPER_PATH, .gatekeeperTransferred => { s with callStep := .DM_PATH }
  | .GATEKEEPER_PATH, .gatekeeperBlocked => handleOutcomeSelection "Gatekeeper Blocked" s
  | .DM_PATH, .dmInterested => { s with callStep := .INTEREST_SUBPATH }
  | .DM_PATH, .dmNotInterested => handleOutcomeSelection "Not Interested" s
  | .INTEREST_SUBPATH, .interestBookMeeting => { s with callStep := .APPOINTMENT }
  | .INTEREST_SUBPATH, .interestSendInfo => handleOutcomeSelection "Interested" s
  | .APPOINTMENT, .appointmentConfirm =>
      if s.appointmentDate = "" then s else handleOutcomeSelection "Appointment Set" s
  | .APPOINTMENT, .appointmentCancel => handleOutcomeSelection "Interested" s
  | .APPOINTMENT, .setDate d => { s with appointmentDate := d }
  | .APPOINTMENT, .setTime t => { s with appointmentTime := t }
  | .SUMMARY, .backToFlow => { s with callStep := .CONNECT }
  | _, _ => s

/-- A wizard session: fold the events over the initial state. -/
def runWizard (events : List WizardEvent) : WizardState :=
  events.foldl stepWizard initWizard

/-- Invariants preserved by every wizard step are preserved by every run. -/
theorem foldl_stepWizard_inv (Inv : WizardState → Prop)
    (h : ∀ s e, Inv s → Inv (stepWizard s e)) :
    ∀ (events : List WizardEvent) (s : WizardState),
      Inv s → Inv (List.foldl stepWizard s events) := by
  intro events
  induction events with
  | nil => intro s hs; exact hs
  | cons e es ih => intro s hs; exact ih (stepWizard s e) (h s e hs)

/-- One wizard step preserves "in SUMMARY with outcome 'Appointment Set', the
date field is non-empty". -/
theorem stepWizard_date_inv (s : WizardState) (e : WizardEvent)
    (hs : s.callStep = .SUMMARY → s.selectedOutcome = "Appointment Set" →
          s.appointmentDate ≠ "") :
    (stepWizard s e).callStep = .SUMMARY →
    (stepWizard s e).selectedOutcome = "Appointment Set" →
    (stepWizard s e).appointmentDate ≠ "" := by
  rcases s with ⟨step, d, t, o, n⟩
  cases step <;> cases e <;>
    simp_all [stepWizard, handleOutcomeSelection] <;>
    split_ifs <;> simp_all

/-- C1: the wizard's successor state for every non-SUMMARY state and every
defined button press matches the spec's transition table, the confirm button
is a no-op while the date is empty, and no reachable wizard state is in
SUMMARY with outcome "Appointment Set" and an empty appointment date. -/
theorem C1_wizard_transition_table :
    (∀ s : WizardState, s.callStep = .CONNECT →
        (stepWizard s .connectYes).callStep = .REACHED_WHOM
      ∧ (stepWizard s .connectNoAnswer).callStep = .SUMMARY
      ∧ (stepWizard s .connectNoAnswer).selectedOutcome = "No Answer")
  ∧ (∀ s : WizardState, s.callStep = .REACHED_WHOM →
        (stepWizard s .reachedGatekeeper).callStep = .GATEKEEPER_PATH
      ∧ (stepWizard s .reachedDecisionMaker).callStep = .DM_PATH)
  ∧ (∀ s : WizardState, s.callStep = .GATEKEEPER_PATH →
        (stepWizard s .gatekeeperTransferred).callStep = .DM_PATH
      ∧ (stepWizard s .gatekeeperBlocked).callStep = .SUMMARY
      ∧ (stepWizard s .gatekeeperBlocked).selectedOutcome = "Gatekeeper Blocked")
  ∧ (∀ s : WizardState, s.callStep = .DM_PATH →
        (stepWizard s .dmInterested).callStep = .INTEREST_SUBPATH
      ∧ (stepWizard s .dmNotInterested).callStep = .SUMMARY
      ∧ (stepWizard s .dmNotInterested).selectedOutcome = "Not Interested")
  ∧ (∀ s : WizardState, s.callStep = .INTEREST_SUBPATH →
        (stepWizard s .interestBookMeeting).callStep = .APPOINTMENT
      ∧ (stepWizard s .interestSendInfo).callStep = .SUMMARY
      ∧ (stepWizard s .interestSendInfo).selectedOutcome = "Interested")
  ∧ (∀ s : WizardState, s.callStep = .APPOINTMENT →
        (s.appointmentDate ≠ "" →
            (stepWizard s .appointmentConfirm).callStep = .SUMMARY
          ∧ (stepWizard s .appointmentConfirm).selectedOutcome = "Appointment Set")
      ∧ (s.appointmentDate = "" → stepWizard s .appointmentConfirm = s)
      ∧ (stepWizard s .appointmentCancel).callStep = .SUMMARY
      ∧ (stepWizard s .appointmentCancel).selectedOutcome = "Interested")
  ∧ (∀ events : List WizardEvent,
        (runWizard events).callStep = .SUMMARY →
        (runWizard events).selectedOutcome = "Appointment Set" →
        (runWizard events).appointmentDate ≠ "") := by
  refine ⟨?_, ?_, ?_, ?_, ?_, ?_, ?_⟩
  · intro s h
    refine ⟨?_, ?_, ?_⟩ <;> simp [stepWizard, h, handleOutcomeSelection]
  · intro s h
    refine ⟨?_, ?_⟩ <;> simp [stepWizard, h]
  · intro s h
    refine ⟨?_, ?_, ?_⟩ <;> simp [stepWizard, h, handleOutcomeSelection]
  · intro s h
    refine ⟨?_, ?_, ?_⟩ <;> simp [stepWizard, h, handleOutcomeSelection]
  · intro s h
    refine ⟨?_, ?_, ?_⟩ <;> simp [stepWizard, h, handleOutcomeSelection]
  · intro s h
    refine ⟨fun hd => ?_, fun hd => ?_, ?_, ?_⟩
    · constructor <;> simp [stepWizard, h, hd, handleOutcomeSelection]
    · simp [stepWizard, h, hd]
    · simp [stepWizard, h, handleOutcomeSelection]
    · simp [stepWizard, h, handleOutcomeSelection]
  · intro events
    exact foldl_stepWizard_inv _ stepWizard_date_inv events initWizard (by simp [initWizard])

/-- A concrete APPOINTMENT-step state with a non-empty date, for the C1
witness. -/
def apptReadyState : WizardState :=
  { callStep := .APPOINTMENT, appointmentDate := "2025-06-01",
    appointmentTime := "", selectedOutcome := "", analysisRequests := 0 }

/-- Witness for C1: the table applied at concrete states, and the date
invariant applied to a concrete execution that books an appointment. -/
theorem C1_wizard_transition_table_witness :
    (stepWizard initWizard .connectYes).callStep = .REACHED_WHOM
  ∧ (stepWizard apptReadyState .appointmentConfirm).selectedOutcome
      = "Appointment Set"
  ∧ (runWizard [.connectYes, .reachedDecisionMaker, .dmInterested,
        .interestBookMeeting, .setDate "2025-06-01",
        .appointmentConfirm]).appointmentDate ≠ "" := by
  refine ⟨(C1_wizard_transition_table.1 initWizard rfl).1, ?_, ?_⟩
  · exact ((C1_wizard_transition_table.2.2.2.2.2.1 _ rfl).1 (by decide)).2
  · exact C1_wizard_transition_table.2.2.2.2.2.2 _ (by decide) (by decide)

/-- The wizard steps on which `handleOutcomeSelection` fires (an enabled
outcome button was pressed): exactly the transitions that enter SUMMARY from
a non-SUMMARY step. -/
def isOutcomeSelection (s : WizardState) (e : WizardEvent) : Bool :=
  match s.callStep, e with
  | .CONNECT, .connectNoAnswer => true
  | .GATEKEEPER_PATH, .gatekeeperBlocked => true
  | .DM_PATH, .dmNotInterested => true
  | .INTEREST_SUBPATH, .interestSendInfo => true
  | .APPOINTMENT, .appointmentConfirm => s.appointmentDate ≠ ""
  | .APPOINTMENT, .appointmentCancel => true
  | _, _ => false

/-- C4 counterexample: a single wizard session that reaches SUMMARY, presses
"Back to Flow", and selects an outcome again issues the asynchronous
call-analysis request twice, refuting "never issued a second time within the
same session". -/
theorem C4_counterexample :
    (runWizard [.connectNoAnswer, .backToFlow, .connectNoAnswer]).callStep = .SUMMARY
  ∧ (runWizard [.connectNoAnswer, .backToFlow, .connectNoAnswer]).analysisRequests = 2 := by
  constructor <;> rfl

/-- C4 (amended): every outcome selection issues exactly one call-analysis
request and nothing else does; SUMMARY is entered only through an outcome
selection; hence at least one request has been issued whenever a session is
in SUMMARY — but a session that leaves SUMMARY via "Back to Flow" and selects
an outcome again issues a further request. -/
theorem C4_analysis_once_per_summary_entry :
    (∀ (s : WizardState) (e : WizardEvent),
        (stepWizard s e).analysisRequests =
          s.analysisRequests + (if isOutcomeSelection s e then 1 else 0))
  ∧ (∀ (s : WizardState) (e : WizardEvent),
        s.callStep ≠ .SUMMARY → (stepWizard s e).callStep = .SUMMARY →
        isOutcomeSelection s e = true)
  ∧ (∀ events : List WizardEvent,
        (runWizard events).callStep = .SUMMARY →
        1 ≤ (runWizard events).analysisRequests) := by
  have hcount : ∀ (s : WizardState) (e : WizardEvent),
      (stepWizard s e).analysisRequests =
        s.analysisRequests + (if isOutcomeSelection s e then 1 else 0) := by
    intro s e
    rcases s with ⟨step, d, t, o, n⟩
    cases step <;> cases e <;>
      simp [stepWizard, handleOutcomeSelection, isOutcomeSelection] <;>
      split_ifs <;> simp_all
  have hentry : ∀ (s : WizardState) (e : WizardEvent),
      s.callStep ≠ .SUMMARY → (stepWizard s e).callStep = .SUMMARY →
      isOutcomeSelection s e = true := by
    intro s e
    rcases s with ⟨step, d, t, o, n⟩
    cases step <;> cases e <;>
      simp [stepWizard, handleOutcomeSelection, isOutcomeSelection] <;>
      split_ifs <;> simp_all
  refine ⟨hcount, hentry, ?_⟩
  intro events
  refine foldl_stepWizard_inv
    (fun s => s.callStep = .SUMMARY → 1 ≤ s.analysisRequests) ?_ events initWizard
    (by simp [initWizard])
  intro s e hs hsum
  rw [hcount s e]
  by_cases hstep : s.callStep = .SUMMARY
  · have := hs hstep
    omega
  · have := hentry s e hstep hsum
    simp [this]

/-- Witness for C4 (amended), at a concrete state and a concrete session. -/
theorem C4_analysis_once_per_summary_entry_witness :
    (stepWizard initWizard .connectNoAnswer).analysisRequests =
      initWizard.analysisRequests + 1
  ∧ isOutcomeSelection initWizard .connectNoAnswer = true
  ∧ 1 ≤ (runWizard [.connectNoAnswer]).analysisRequests := by
  refine ⟨?_, ?_, ?_⟩
  · have h := C4_analysis_once_per_summary_entry.1 initWizard .connectNoAnswer
    simpa [isOutcomeSelection, initWizard] using h
  · exact C4_analysis_once_per_summary_entry.2.1 initWizard .connectNoAnswer
      (by decide) (by decide)
  · exact C4_analysis_once_per_summary_entry.2.2 [.connectNoAnswer] (by decide)

/-! ## Per-lead enrichment (`src/services/geminiService.ts`, `enrichLeadData`)

The external model response is an explicit value: either the request threw
(`failure`, the `catch` branch returns the input lead), or it succeeded with
a parsed JSON object (`data`, whose absent keys are `none`) and a source URL
extracted from the grounding metadata (`foundSourceUrl`). -/

/-- The JSON object keys `enrichLeadData` reads from the model response. -/
structure EnrichData where
  website : Option String
  ceo : Option String
  email : Option String
  emailStatus : Option String
  companyDescription : Option String
  deriving Repr, DecidableEq

/-- Outcome of the underlying `generateContent` request. -/
inductive EnrichOutcome
  | success (data : EnrichData) (foundSourceUrl : Option String)
  | failure
  deriving Repr, DecidableEq

/-- The "simple validation" of the returned email (geminiService.ts line 223):
`data.email && data.email.includes('@') ? data.email.toLowerCase().trim() : null`. -/
def validatedEmail (dataEmail : Option String) : Option String :=
  match dataEmail with
  | some e => if e ≠ "" && e.contains '@' then some e.toLower.trim else none
  | none => none

/-- `enrichLeadData` from `src/services/geminiService.ts` (lines 128-240):
merge the response fields into the lead with JS `||` fallbacks; on failure
(`catch`) return the input lead unchanged. -/
def enrichLeadData (lead : Lead) (response : EnrichOutcome) : Lead :=
  match response with
  | .failure => lead
  | .success data foundSourceUrl =>
      let email := validatedEmail data.email
      { lead with
        website := jsOr lead.website (jsOr data.website none),
        ceo := jsOr data.ceo lead.ceo,
        email := jsOr email lead.email,
        emailStatus :=
          if jsTruthyS email then jsOr data.emailStatus (some "Validated")
          else lead.emailStatus,
        companyDescription := jsOr data.companyDescription lead.companyDescription,
        sourceUrl := jsOr foundSourceUrl lead.sourceUrl }

/-- C9 counterexample: a lead whose `website` is the non-null empty string
(non-null, but JS-falsy) loses its website when the response carries none —
`lead.website || data.website || null` collapses `""` to `null`.  So "output
non-null whenever the input was non-null" fails for `website`. -/
theorem C9_counterexample :
    (enrichLeadData { emptyLead with website := some "" }
        (.success { website := none, ceo := none, email := none,
                    emailStatus := none, companyDescription := none } none)).website = none
  ∧ ({ emptyLead with website := some "" } : Lead).website ≠ none := by
  constructor <;> simp [enrichLeadData, emptyLead, jsOr, jsTruthyS]

/-- C9 (amended): enrichment is monotone in field presence up to JS
truthiness: a truthy input website is kept verbatim; non-null ceo, email,
companyDescription and sourceUrl inputs stay non-null (their `||` fallback is
the input value); and the failure path returns the lead unchanged. -/
theorem C9_enrichment_presence_monotone (lead : Lead) (response : EnrichOutcome) :
    (jsTruthyS lead.website = true →
        (enrichLeadData lead response).website = lead.website)
  ∧ (lead.ceo ≠ none → (enrichLeadData lead response).ceo ≠ none)
  ∧ (lead.email ≠ none → (enrichLeadData lead response).email ≠ none)
  ∧ (lead.companyDescription ≠ none →
        (enrichLeadData lead response).companyDescription ≠ none)
  ∧ (lead.sourceUrl ≠ none → (enrichLeadData lead response).sourceUrl ≠ none)
  ∧ enrichLeadData lead .failure = lead := by
  rcases response with ⟨data, foundSourceUrl⟩ | _
  · refine ⟨?_, ?_, ?_, ?_, ?_, rfl⟩
    · intro h
      simp [enrichLeadData, jsOr, h]
    · intro h
      simp only [enrichLeadData, jsOr]
      split_ifs with hq
      · rcases hc2 : data.ceo with _ | c
        · rw [hc2] at hq
          simp [jsTruthyS] at hq
        · simp [hc2]
      · exact h
    · intro h
      simp only [enrichLeadData, jsOr]
      split_ifs with hq
      · rcases hve : validatedEmail data.email with _ | v
        · rw [hve] at hq
          simp [jsTruthyS] at hq
        · simp
      · exact h
    · intro h
      simp only [enrichLeadData, jsOr]
      split_ifs with hq
      · rcases hc2 : data.companyDescription with _ | c
        · rw [hc2] at hq
          simp [jsTruthyS] at hq
        · simp [hc2]
      · exact h
    · intro h
      simp only [enrichLeadData, jsOr]
      split_ifs with hq
      · rcases foundSourceUrl with _ | u
        · simp [jsTruthyS] at hq
        · simp
      · exact h
  · exact ⟨fun _ => rfl, fun h => h, fun h => h, fun h => h, fun h => h, rfl⟩

/-- Witness for C9 (amended) at a concrete lead and response. -/
theorem C9_enrichment_presence_monotone_witness :
    (enrichLeadData { emptyLead with website := some "https://a.example" }
        (.success { website := none, ceo := none, email := none,
                    emailStatus := none, companyDescription := none } none)).website
      = some "https://a.example"
  ∧ (enrichLeadData { emptyLead with ceo := some "Ada" }
        (.success { website := none, ceo := none, email := none,
                    emailStatus := none, companyDescription := none } none)).ceo ≠ none := by
  constructor
  · exact (C9_enrichment_presence_monotone _ _).1 (by decide)
  · exact (C9_enrichment_presence_monotone _ _).2.1 (by decide)

/-! ## Batch enrichment pipeline (`src/App.tsx`, `processEnrichment`)

The non-demo path of `processEnrichment` (lines 132-173): mark the target
leads in-flight, process `leadsToEnrich` in batches of `BATCH_SIZE = 5`
(awaiting the whole batch before the next), merge each batch result back by
id, and finally set the project status from the remaining in-flight flags.
The per-lead body of the batch `map` (lines 146-156) is `enrichBatchItem`. -/

/-- The body of the batch `map` in `processEnrichment` (App.tsx lines
146-156): enrich the lead, recompute the derived confidence level and the
lead score from the enriched fields, and clear the in-flight flag. -/
def enrichBatchItem (oracle : Lead → EnrichOutcome) (lead : Lead) : Lead :=
  let enriched := enrichLeadData lead (oracle lead)
  let confidence := "Low"
  let confidence :=
    if jsTruthyS enriched.email || jsTruthyS enriched.ceo then "Medium" else confidence
  let confidence :=
    if jsTruthyS enriched.email && jsTruthyS enriched.ceo && jsTruthyS enriched.website then
      "High"
    else confidence
  let leadScore := calculateLeadScore enriched
  { enriched with confidence := confidence, leadScore := some leadScore,
                  isEnriching := false }

/-- Marking phase (App.tsx line 137): set `isEnriching` on every lead whose
id is in the target id set. -/
def markEnriching (idsToEnrich : List String) (leads : List Lead) : List Lead :=
  leads.map fun l =>
    if idsToEnrich.contains l.id then { l with isEnriching := true } else l

/-- Merging one batch result back into the list (App.tsx lines 160-165):
`findIndex` by id, and overwrite that position when found. -/
def mergeOne (leads : List Lead) (enrichedLead : Lead) : List Lead :=
  match leads.findIdx? (fun l => l.id == enrichedLead.id) with
  | some idx => leads.set idx enrichedLead
  | none => leads

/-- Merging a whole batch result list, in order (`batchResults.forEach`). -/
def mergeBatch (leads : List Lead) (batchResults : List Lead) : List Lead :=
  batchResults.foldl mergeOne leads

/-- The batch loop of `processEnrichment` (App.tsx lines 142-169), returning
the final lead list together with the size of each processed batch (one entry
per loop iteration, i.e. per round of at most 5 concurrent calls). -/
def enrichLoop (oracle : Lead → EnrichOutcome) :
    List Lead → List Lead → List Lead × List Nat
  | currentLeads, [] => (currentLeads, [])
  | currentLeads, t :: ts =>
      let batch := (t :: ts).take 5
      let rest := (t :: ts).drop 5
      let batchResults := batch.map (enrichBatchItem oracle)
      let merged := mergeBatch currentLeads batchResults
      let out := enrichLoop oracle merged rest
      (out.1, batch.length :: out.2)
  termination_by _ toEnrich => toEnrich.length
  decreasing_by simp [List.length_drop]; omega

/-- `processEnrichment` (non-demo path, App.tsx lines 132-173): mark targets
in-flight, run the batch loop, then set the final status to `Completed` iff
no lead in the list is still in-flight.  Returns the final project and the
batch sizes of the processed rounds. -/
def processEnrichment (oracle : Lead → EnrichOutcome) (project : Project)
    (leadsToEnrich : List Lead) : Project × List Nat :=
  let idsToEnrich := leadsToEnrich.map (·.id)
  let currentLeads := markEnriching idsToEnrich project.leads
  let out := enrichLoop oracle currentLeads leadsToEnrich
  let isStillEnriching := out.1.any (·.isEnriching)
  ({ project with leads := out.1,
                  status := if isStillEnriching then "Enriching" else "Completed" },
   out.2)

/-- A concrete lead with a stale cached confidence/score, for the C8
counterexample: no email/CEO/website, yet `confidence = "High"` and
`leadScore = 95`. -/
def staleLead : Lead :=
  { emptyLead with id := "L1", name := "Acme", confidence := "High",
                   leadScore := some 95, isEnriching := true }

/-- C8 counterexample: when the enrichment call fails, the batch body still
recomputes `confidence` and `leadScore` from the (unchanged) fields, so a
lead whose cached values disagree with its fields does not keep its pre-call
`confidence`/`leadScore` — refuting "every data field (..., confidence,
leadScore) keeps its pre-call value". -/
theorem C8_counterexample :
    (enrichBatchItem (fun _ => .failure) staleLead).confidence = "Low"
  ∧ staleLead.confidence = "High"
  ∧ (enrichBatchItem (fun _ => .failure) staleLead).leadScore = some 0
  ∧ staleLead.leadScore = some 95 := by
  refine ⟨rfl, rfl, ?_, rfl⟩
  rfl

/-- C8 (amended): a failed enrichment call is not retried (the batch body
consults the oracle exactly once and its `catch` returns the input lead);
afterwards the lead keeps every pre-call data field (website, phone, email,
emailStatus, ceo, description, sourceUrl, notes) and its in-flight flag is
cleared — but `confidence` and `leadScore` are recomputed from those
unchanged fields rather than kept. -/
theorem C8_failed_enrichment_preserves_fields (lead : Lead) :
    (enrichBatchItem (fun _ => .failure) lead).website = lead.website
  ∧ (enrichBatchItem (fun _ => .failure) lead).phone = lead.phone
  ∧ (enrichBatchItem (fun _ => .failure) lead).email = lead.email
  ∧ (enrichBatchItem (fun _ => .failure) lead).emailStatus = lead.emailStatus
  ∧ (enrichBatchItem (fun _ => .failure) lead).ceo = lead.ceo
  ∧ (enrichBatchItem (fun _ => .failure) lead).companyDescription = lead.companyDescription
  ∧ (enrichBatchItem (fun _ => .failure) lead).sourceUrl = lead.sourceUrl
  ∧ (enrichBatchItem (fun _ => .failure) lead).notes = lead.notes
  ∧ (enrichBatchItem (fun _ => .failure) lead).isEnriching = false
  ∧ (enrichBatchItem (fun _ => .failure) lead).leadScore = some (calculateLeadScore lead)
  ∧ (enrichBatchItem (fun _ => .failure) lead).confidence =
      (if jsTruthyS lead.email && jsTruthyS lead.ceo && jsTruthyS lead.website then "High"
       else if jsTruthyS lead.email || jsTruthyS lead.ceo then "Medium" else "Low") := by
  refine ⟨rfl, rfl, rfl, rfl, rfl, rfl, rfl, rfl, rfl, rfl, rfl⟩

/-! ### Correctness of the batch loop (claim C2)

The key invariants: merging preserves the id sequence of the lead list;
merged batch results all carry a cleared in-flight flag; and with distinct
ids, merging a batch result clears every occurrence of its id. -/


theorem mergeOne_cons (l : Lead) (ls : List Lead) (e : Lead) :
    mergeOne (l :: ls) e =
      if l.id == e.id then e :: ls else l :: mergeOne ls e := by
  simp only [mergeOne, List.findIdx?_cons, List.findIdx?_succ]
  by_cases h : l.id == e.id
  · simp [h]
  · simp only [h, Bool.false_eq_true, if_false, if_neg]
    rcases hf : List.findIdx? (fun x => x.id == e.id) ls with _ | i
    · simp [hf]
    · simp [hf, List.set]

theorem mergeOne_map_id (ls : List Lead) (e : Lead) :
    (mergeOne ls e).map (·.id) = ls.map (·.id) := by
  induction ls with
  | nil => rfl
  | cons l ls ih =>
      rw [mergeOne_cons]
      by_cases h : l.id == e.id
      · have hid : l.id = e.id := beq_iff_eq.mp h
        simp [h, hid]
      · simp only [h, Bool.false_eq_true, if_false, List.map_cons, ih]

/-- "Every lead with this id has a cleared in-flight flag." -/
def ClearedOn (i : String) (ls : List Lead) : Prop :=
  ∀ l ∈ ls, l.id = i → l.isEnriching = false

theorem mem_mergeOne (ls : List Lead) (e x : Lead) (hx : x ∈ mergeOne ls e) :
    x ∈ ls ∨ x = e := by
  induction ls with
  | nil => simp [mergeOne] at hx
  | cons l ls ih =>
      rw [mergeOne_cons] at hx
      by_cases h : l.id == e.id
      · rw [if_pos h] at hx
        rcases List.mem_cons.mp hx with rfl | hmem
        · exact Or.inr rfl
        · exact Or.inl (List.mem_cons_of_mem _ hmem)
      · rw [if_neg (by simpa using h)] at hx
        rcases List.mem_cons.mp hx with rfl | hmem
        · exact Or.inl (List.mem_cons_self _ _)
        · rcases ih hmem with hm | he
          · exact Or.inl (List.mem_cons_of_mem _ hm)
          · exact Or.inr he

theorem clearedOn_mergeOne_mono (i : String) (ls : List Lead) (e : Lead)
    (he : e.isEnriching = false) (h : ClearedOn i ls) :
    ClearedOn i (mergeOne ls e) := by
  intro x hx hxi
  rcases mem_mergeOne ls e x hx with hm | rfl
  · exact h x hm hxi
  · exact he

theorem clearedOn_mergeOne_self (e : Lead) (he : e.isEnriching = false) :
    ∀ ls : List Lead, ((ls.map (·.id)).Nodup) → ClearedOn e.id (mergeOne ls e) := by
  intro ls
  induction ls with
  | nil => intro _ x hx; simp [mergeOne] at hx
  | cons l ls ih =>
      intro hnd x hx hxi
      rw [mergeOne_cons] at hx
      have hnd2 : (∀ y ∈ ls, ¬ y.id = l.id) ∧ ((ls.map (·.id)).Nodup) := by
        simpa using hnd
      by_cases h : l.id == e.id
      · rw [if_pos h] at hx
        rcases List.mem_cons.mp hx with rfl | hmem
        · exact he
        · have hid : l.id = e.id := beq_iff_eq.mp h
          exact absurd (hxi.trans hid.symm) (hnd2.1 x hmem)
      · rw [if_neg (by simpa using h)] at hx
        rcases List.mem_cons.mp hx with rfl | hmem
        · exact absurd hxi (by simpa using h)
        · exact ih hnd2.2 x hmem hxi

theorem mergeBatch_map_id (rs : List Lead) :
    ∀ ls : List Lead, (mergeBatch ls rs).map (·.id) = ls.map (·.id) := by
  induction rs with
  | nil => intro ls; rfl
  | cons r rs ih =>
      intro ls
      show (mergeBatch (mergeOne ls r) rs).map (·.id) = _
      rw [ih, mergeOne_map_id]

theorem clearedOn_mergeBatch_mono (i : String) (rs : List Lead)
    (hrs : ∀ r ∈ rs, r.isEnriching = false) :
    ∀ ls : List Lead, ClearedOn i ls → ClearedOn i (mergeBatch ls rs) := by
  induction rs with
  | nil => intro ls h; exact h
  | cons r rs ih =>
      intro ls h
      show ClearedOn i (mergeBatch (mergeOne ls r) rs)
      exact ih (fun x hx => hrs x (List.mem_cons_of_mem _ hx)) _
        (clearedOn_mergeOne_mono i ls r (hrs r (List.mem_cons_self _ _)) h)

theorem clearedOn_mergeBatch_self (rs : List Lead)
    (hrs : ∀ r ∈ rs, r.isEnriching = false) :
    ∀ ls : List Lead, ((ls.map (·.id)).Nodup) →
      ∀ r ∈ rs, ClearedOn r.id (mergeBatch ls rs) := by
  induction rs with
  | nil => intro ls _ r hr; cases hr
  | cons r rs ih =>
      intro ls hnd x hx
      show ClearedOn x.id (mergeBatch (mergeOne ls r) rs)
      rcases List.mem_cons.mp hx with rfl | hmem
      · exact clearedOn_mergeBatch_mono x.id rs
          (fun y hy => hrs y (List.mem_cons_of_mem _ hy)) _
          (clearedOn_mergeOne_self x (hrs x (List.mem_cons_self _ _)) ls hnd)
      · exact ih (fun y hy => hrs y (List.mem_cons_of_mem _ hy)) _
          (by rw [mergeOne_map_id]; exact hnd) x hmem

theorem enrichLeadData_id (lead : Lead) (resp : EnrichOutcome) :
    (enrichLeadData lead resp).id = lead.id := by
  cases resp <;> rfl

theorem enrichBatchItem_id (oracle : Lead → EnrichOutcome) (l : Lead) :
    (enrichBatchItem oracle l).id = l.id := by
  simp only [enrichBatchItem]
  exact enrichLeadData_id l (oracle l)

theorem enrichBatchItem_cleared (oracle : Lead → EnrichOutcome) (l : Lead) :
    (enrichBatchItem oracle l).isEnriching = false := rfl

theorem enrichLoop_leads_spec (oracle : Lead → EnrichOutcome)
    (current toEnrich : List Lead) : ((current.map (·.id)).Nodup) →
      ((enrichLoop oracle current toEnrich).1.map (·.id) = current.map (·.id))
    ∧ (∀ i, ClearedOn i current → ClearedOn i (enrichLoop oracle current toEnrich).1)
    ∧ (∀ l ∈ toEnrich, ClearedOn l.id (enrichLoop oracle current toEnrich).1) := by
  induction current, toEnrich using enrichLoop.induct oracle with
  | case1 current =>
      intro hnd
      refine ⟨by simp [enrichLoop], ?_, by simp⟩
      intro i hi
      simpa [enrichLoop] using hi
  | case2 current t ts batch rest batchResults merged ih =>
      intro hnd
      have hba : ∀ r ∈ batchResults, r.isEnriching = false := by
        intro r hr
        rcases List.mem_map.mp hr with ⟨x, _, rfl⟩
        exact enrichBatchItem_cleared oracle x
      have hndm : ((merged.map (·.id)).Nodup) := by
        show (((mergeBatch current batchResults).map (·.id)).Nodup)
        rw [mergeBatch_map_id]
        exact hnd
      obtain ⟨ih1, ih2, ih3⟩ := ih hndm
      have hunfold : enrichLoop oracle current (t :: ts) =
          ((enrichLoop oracle merged rest).1,
            batch.length :: (enrichLoop oracle merged rest).2) := by
        simp only [enrichLoop]
      refine ⟨?_, ?_, ?_⟩
      · rw [hunfold]
        dsimp only
        rw [ih1]
        show ((mergeBatch current batchResults).map (·.id)) = _
        rw [mergeBatch_map_id]
      · intro i hi
        rw [hunfold]
        dsimp only
        exact ih2 i (clearedOn_mergeBatch_mono i batchResults hba current hi)
      · intro l hl
        rw [hunfold]
        dsimp only
        have hsplit : l ∈ batch ∨ l ∈ rest := by
          have hta := List.take_append_drop 5 (t :: ts)
          rw [← hta] at hl
          exact List.mem_append.mp hl
        rcases hsplit with hb | hr2
        · have hrmem : enrichBatchItem oracle l ∈ batchResults :=
            List.mem_map_of_mem _ hb
          have hcl : ClearedOn (enrichBatchItem oracle l).id merged :=
            clearedOn_mergeBatch_self batchResults hba current hnd _ hrmem
          rw [enrichBatchItem_id] at hcl
          exact ih2 l.id hcl
        · exact ih3 l hr2

theorem enrichLoop_rounds (oracle : Lead → EnrichOutcome)
    (current toEnrich : List Lead) :
    ((enrichLoop oracle current toEnrich).2.length = (toEnrich.length + 4) / 5)
  ∧ (∀ b ∈ (enrichLoop oracle current toEnrich).2, 1 ≤ b ∧ b ≤ 5)
  ∧ ((enrichLoop oracle current toEnrich).2.sum = toEnrich.length) := by
  induction current, toEnrich using enrichLoop.induct oracle with
  | case1 current => simp [enrichLoop]
  | case2 current t ts batch rest batchResults merged ih =>
      obtain ⟨ih1, ih2, ih3⟩ := ih
      have hunfold : enrichLoop oracle current (t :: ts) =
          ((enrichLoop oracle merged rest).1,
            batch.length :: (enrichLoop oracle merged rest).2) := by
        simp only [enrichLoop]
      have hbl : batch.length = min 5 (ts.length + 1) := by
        show (List.take 5 (t :: ts)).length = _
        simp [List.length_take]
        omega
      have hrl : rest.length = ts.length + 1 - 5 := by
        show (List.drop 5 (t :: ts)).length = _
        simp [List.length_drop]
      rw [hrl] at ih1 ih3
      refine ⟨?_, ?_, ?_⟩
      · rw [hunfold]
        dsimp only
        rw [List.length_cons, ih1]
        simp only [List.length_cons]
        omega
      · intro b hb
        rw [hunfold] at hb
        dsimp only at hb
        rcases List.mem_cons.mp hb with rfl | hmem
        · rw [hbl]
          omega
        · exact ih2 b hmem
      · rw [hunfold]
        dsimp only
        rw [List.sum_cons, ih3, hbl]
        simp only [List.length_cons]
        omega

/-- Marking preserves the id sequence of the lead list. -/
theorem markEnriching_map_id (ids : List String) (leads : List Lead) :
    (markEnriching ids leads).map (·.id) = leads.map (·.id) := by
  induction leads with
  | nil => rfl
  | cons l ls ih =>
      simp only [markEnriching, List.map_cons] at ih ⊢
      rw [ih]
      congr 1
      split <;> rfl

/-- Marking sets the in-flight flag on every lead whose id is targeted. -/
theorem markEnriching_marks (ids : List String) (leads : List Lead) :
    ∀ l ∈ markEnriching ids leads, l.id ∈ ids → l.isEnriching = true := by
  intro l hl hc
  rcases List.mem_map.mp hl with ⟨x, _, rfl⟩
  by_cases h : ids.contains x.id = true
  · rw [if_pos h]
  · rw [if_neg h] at hc ⊢
    exact absurd (List.elem_iff.mpr hc) (by simpa using h)

/-- The final status assignment: `Completed` iff no in-flight flag remains. -/
theorem statusCompleted_iff (leads : List Lead) :
    ((if leads.any (·.isEnriching) then "Enriching" else "Completed") = "Completed"
      ↔ ∀ l ∈ leads, l.isEnriching = false) := by
  by_cases h : leads.any (·.isEnriching)
  · rw [if_pos h]
    simp only [List.any_eq_true] at h
    rcases h with ⟨x, hx, hflag⟩
    constructor
    · intro hEq
      exact absurd hEq (by decide)
    · intro hall
      rw [hall x hx] at hflag
      exact absurd hflag (by decide)
  · rw [if_neg h]
    simp only [List.any_eq_true, not_exists] at h
    constructor
    · intro _ l hl
      have := h l
      simp only [hl, true_and] at this
      simpa using this
    · intro _
      rfl

/-- C2: the non-demo batch-enrichment pipeline (with leads of pairwise
distinct ids): the marking phase flags every target lead; the loop runs
exactly ceil(N/5) rounds, each of 1-5 enrichment calls, covering all N
targets; afterwards every lead with a targeted id has a cleared in-flight
flag, the id sequence of the project's lead list is unchanged, and the final
status is `Completed` iff no lead in the list is still in-flight. -/
theorem C2_batch_enrichment (oracle : Lead → EnrichOutcome) (project : Project)
    (leadsToEnrich : List Lead) (hne : leadsToEnrich ≠ [])
    (hnd : ((project.leads.map (·.id)).Nodup)) :
    (∀ l ∈ markEnriching (leadsToEnrich.map (·.id)) project.leads,
        l.id ∈ leadsToEnrich.map (·.id) → l.isEnriching = true)
  ∧ (processEnrichment oracle project leadsToEnrich).2.length =
      (leadsToEnrich.length + 4) / 5
  ∧ (∀ b ∈ (processEnrichment oracle project leadsToEnrich).2, 1 ≤ b ∧ b ≤ 5)
  ∧ (processEnrichment oracle project leadsToEnrich).2.sum = leadsToEnrich.length
  ∧ (∀ l ∈ (processEnrichment oracle project leadsToEnrich).1.leads,
        l.id ∈ leadsToEnrich.map (·.id) → l.isEnriching = false)
  ∧ ((processEnrichment oracle project leadsToEnrich).1.leads.map (·.id) =
      project.leads.map (·.id))
  ∧ ((processEnrichment oracle project leadsToEnrich).1.status = "Completed"
      ↔ ∀ l ∈ (processEnrichment oracle project leadsToEnrich).1.leads,
          l.isEnriching = false) := by
  have hndm : (((markEnriching (leadsToEnrich.map (·.id)) project.leads).map (·.id)).Nodup) := by
    rw [markEnriching_map_id]
    exact hnd
  have hspec := enrichLoop_leads_spec oracle
    (markEnriching (leadsToEnrich.map (·.id)) project.leads) leadsToEnrich hndm
  have hrounds := enrichLoop_rounds oracle
    (markEnriching (leadsToEnrich.map (·.id)) project.leads) leadsToEnrich
  refine ⟨markEnriching_marks _ _, ?_, ?_, ?_, ?_, ?_, ?_⟩
  · exact hrounds.1
  · exact hrounds.2.1
  · exact hrounds.2.2
  · intro l hl hid
    rcases List.mem_map.mp hid with ⟨tl, htl, hidEq⟩
    exact hspec.2.2 tl htl l hl hidEq.symm
  · show ((enrichLoop oracle _ leadsToEnrich).1.map (·.id)) = _
    rw [hspec.1, markEnriching_map_id]
  · exact statusCompleted_iff _

/-- Concrete leads and project for the C2 witness: six distinct ids. -/
def wLead (i : String) : Lead := { emptyLead with id := i }

/-- Concrete six-lead project for the C2 witness. -/
def wProject : Project :=
  { id := "P1", name := "Cafes in Berlin", industry := "Cafe",
    location := "Berlin",
    filters := { minRating := 0, minReviews := 0, mustHaveWebsite := false },
    leads := [wLead "a", wLead "b", wLead "c", wLead "d", wLead "e", wLead "f"],
    status := "Enriching" }

/-- Witness for C2: six leads with an always-failing oracle run in exactly
`ceil(6/5) = 2` rounds covering all six calls. -/
theorem C2_batch_enrichment_witness :
    (processEnrichment (fun _ => .failure) wProject wProject.leads).2.length = 2
  ∧ (processEnrichment (fun _ => .failure) wProject wProject.leads).2.sum = 6 := by
  have h := C2_batch_enrichment (fun _ => .failure) wProject wProject.leads
    (by decide) (by decide)
  exact ⟨by simpa [wProject, wLead] using h.2.1,
         by simpa [wProject, wLead] using h.2.2.2.1⟩

/-! ## Application call state (`src/App.tsx`) and final save
(`src/components/CallWizard.tsx`, `handleFinalSave`) -/

/-- JS `a || b` for an optional number with a plain fallback (`0` is falsy). -/
def jsOrInt (a : Option Int) (b : Int) : Int :=
  match a with
  | none => b
  | some n => if n = 0 then b else n

/-- JS `a || b` for plain strings (`""` is falsy). -/
def jsOrPlain (a b : String) : String :=
  if a = "" then b else a

/-- The `CallContext` type of App.tsx (lines 19-22). -/
inductive CtxType
  | project
  | list
  deriving Repr, DecidableEq

/-- Where the active call's lead came from. -/
structure CallContext where
  type : CtxType
  parentId : String
  deriving Repr, DecidableEq

/-- The root component state the call flow touches: the project and contact
lists plus the global call state (`activeCallLead` / `activeCallContext`). -/
structure AppState where
  projects : List Project
  contactLists : List ContactList
  activeCallLead : Option Lead
  activeCallContext : Option CallContext
  deriving Repr, DecidableEq

/-- `handleStartCall` (App.tsx lines 540-543): open the wizard on a lead. -/
def handleStartCall (lead : Lead) (ctx : CallContext) (st : AppState) : AppState :=
  { st with activeCallLead := some lead, activeCallContext := some ctx }

/-- The `onClose` closure wired to the wizard (App.tsx lines 789-792): clear
the active call state and nothing else. -/
def closeWizard (st : AppState) : AppState :=
  { st with activeCallLead := none, activeCallContext := none }

/-- The `updatedLead` construction inside `handleLogCall` (App.tsx lines
548-554): prepend the log, record the outcome, apply the optional status and
appointment date with `||` fallbacks. -/
def applyCallLog (lead : Lead) (log : CallLog) (updatedLeadStatus : Option String)
    (appointmentDate : Option String) : Lead :=
  { lead with
    callLogs := log :: lead.callLogs,
    lastCallResult := some log.outcome,
    status := jsOrStr updatedLeadStatus lead.status,
    appointmentDate := jsOr appointmentDate lead.appointmentDate }

/-- `handleLogCall` (App.tsx lines 545-589): guard on the active call state,
build the updated lead, replace it in the originating project or contact
list, and close the wizard. -/
def handleLogCall (log : CallLog) (updatedLeadStatus : Option String)
    (appointmentDate : Option String) (st : AppState) : AppState :=
  match st.activeCallLead, st.activeCallContext with
  | some lead, some ctx =>
      let updatedLead := applyCallLog lead log updatedLeadStatus appointmentDate
      let st1 :=
        match ctx.type with
        | .project =>
            { st with projects := st.projects.map (fun p : Project =>
                if p.id = ctx.parentId then
                  { p with leads := p.leads.map (fun l : Lead =>
                      if l.id = updatedLead.id then updatedLead else l) }
                else p) }
        | .list =>
            { st with contactLists := st.contactLists.map (fun cl : ContactList =>
                if cl.id = ctx.parentId then
                  { cl with leads := cl.leads.map (fun l : Lead =>
                      if l.id = updatedLead.id then updatedLead else l) }
                else cl) }
      { st1 with activeCallLead := none, activeCallContext := none }
  | _, _ => st

/-- Number of `CallLog` records held across the whole application state. -/
def totalCallLogs (st : AppState) : Nat :=
  (st.projects.map fun p => (p.leads.map fun l => l.callLogs.length).sum).sum
    + (st.contactLists.map fun cl => (cl.leads.map fun l => l.callLogs.length).sum).sum

/-- A wizard session that never saves: open the wizard on a lead, run any
sequence of wizard-internal events (which act on the wizard component state
only), and close the dialog. -/
def cancelledSession (st : AppState) (lead : Lead) (ctx : CallContext)
    (events : List WizardEvent) : AppState × WizardState :=
  (closeWizard (handleStartCall lead ctx st),
   List.foldl stepWizard initWizard events)

/-- C5: closing the wizard before the save action leaves the application
state unchanged: the projects and contact lists (hence every lead's
`callLogs`, `lastCallResult`, `status` and `appointmentDate`) are exactly as
before the wizard opened, and the number of CallLog records is unchanged.
`handleLogCall` is the only operation of the model that rewrites a lead. -/
theorem C5_discard_on_cancel (st : AppState) (lead : Lead) (ctx : CallContext)
    (events : List WizardEvent) :
    (cancelledSession st lead ctx events).1.projects = st.projects
  ∧ (cancelledSession st lead ctx events).1.contactLists = st.contactLists
  ∧ totalCallLogs (cancelledSession st lead ctx events).1 = totalCallLogs st
  ∧ (closeWizard st).projects = st.projects
  ∧ (closeWizard st).contactLists = st.contactLists
  ∧ (handleStartCall lead ctx st).projects = st.projects
  ∧ (handleStartCall lead ctx st).contactLists = st.contactLists := by
  exact ⟨rfl, rfl, rfl, rfl, rfl, rfl, rfl⟩

/-- `handleFinalSave` (CallWizard.tsx lines 95-128), as a function of the
wizard's collected state and the identifiers produced at save time; returns
the triple passed to `onLogCall`: the new log, the optional new lead status,
and the composed appointment date-time. -/
def handleFinalSave (lead : Lead) (selectedOutcome appointmentDate appointmentTime notes : String)
    (manualSentiment : Option String) (generatedAnalysis : Option CallAnalysis)
    (hasRecording : Bool) (newId timestamp recordingUrl : String) :
    CallLog × Option String × Option String :=
  let finalApptDate : Option String :=
    if selectedOutcome = "Appointment Set" && appointmentDate ≠ "" then
      some (appointmentDate ++ "T" ++ jsOrPlain appointmentTime "12:00" ++ ":00")
    else none
  let finalAnalysis : CallAnalysis :=
    { callScore := jsOrInt (generatedAnalysis.map (·.callScore)) 50,
      scriptAdherence := jsOrInt (generatedAnalysis.map (·.scriptAdherence)) 0,
      confidence := jsOrStr (generatedAnalysis.map (·.confidence)) "Medium",
      sentiment :=
        jsOrStr (jsOr manualSentiment (generatedAnalysis.map (·.sentiment))) "Neutral",
      keyTakeaways :=
        if notes ≠ "" then
          (notes.splitOn "\n").filter (fun n => 0 < n.trim.length)
        else
          match generatedAnalysis with
          | some a => a.keyTakeaways
          | none => [],
      userNotes := some notes }
  let newLog : CallLog :=
    { id := newId, timestamp := timestamp, outcome := selectedOutcome,
      appointmentDate := finalApptDate,
      recordingUrl := if hasRecording then some recordingUrl else none,
      recordingStatus := if hasRecording then some "Uploaded" else none,
      analysis := some finalAnalysis, notes := some notes }
  let newStatus : Option String :=
    if selectedOutcome = "Appointment Set" || selectedOutcome = "Interested" then
      some "Contacted"
    else if lead.status = "New" then some "Contacted"
    else none
  (newLog, newStatus, finalApptDate)

/-- C10: on the final save, the saved lead's status becomes `Contacted`
exactly when the outcome is `Appointment Set` or `Interested` or the lead's
previous status was `New`; otherwise it is left unchanged.  Also the saved
log carries the selected outcome. -/
theorem C10_saved_status_rule (lead : Lead)
    (selectedOutcome appointmentDate appointmentTime notes : String)
    (manualSentiment : Option String) (generatedAnalysis : Option CallAnalysis)
    (hasRecording : Bool) (newId timestamp recordingUrl : String) :
    (applyCallLog lead
        (handleFinalSave lead selectedOutcome appointmentDate appointmentTime notes
          manualSentiment generatedAnalysis hasRecording newId timestamp recordingUrl).1
        (handleFinalSave lead selectedOutcome appointmentDate appointmentTime notes
          manualSentiment generatedAnalysis hasRecording newId timestamp recordingUrl).2.1
        (handleFinalSave lead selectedOutcome appointmentDate appointmentTime notes
          manualSentiment generatedAnalysis hasRecording newId timestamp recordingUrl).2.2).status
      = (if selectedOutcome = "Appointment Set" ∨ selectedOutcome = "Interested"
            ∨ lead.status = "New"
         then "Contacted" else lead.status)
  ∧ (handleFinalSave lead selectedOutcome appointmentDate appointmentTime notes
        manualSentiment generatedAnalysis hasRecording newId timestamp recordingUrl).1.outcome
      = selectedOutcome := by
  constructor
  · simp only [handleFinalSave, applyCallLog]
    by_cases h1 : selectedOutcome = "Appointment Set"
    · simp [h1, jsOrStr]
    · by_cases h2 : selectedOutcome = "Interested"
      · simp [h1, h2, jsOrStr]
      · by_cases h3 : lead.status = "New"
        · simp [h1, h2, h3, jsOrStr]
        · simp [h1, h2, h3, jsOrStr]
  · rfl

/-! ## CSV export (`handleExport` in the project view, `src/unnamed/part_001`
lines 113-143) -/

/-- JS `Array.prototype.join(sep)`. -/
def jsJoin (sep : String) : List String → String
  | [] => ""
  | [x] => x
  | x :: xs => x ++ sep ++ jsJoin sep xs

/-- JS `Array.prototype.join` renders a `null`/`undefined` element as the
empty string. -/
def joinCell (o : Option String) : String := o.getD ""

/-- The fixed header list of `handleExport`. -/
def csvHeaders : List String :=
  ["Company Name", "Lead Score", "Category", "Address", "Website", "Phone",
   "Email", "Email Status", "CEO", "Description", "Status", "Last Call",
   "Setting Date", "Source URL"]

/-- One exported row (`handleExport`, lines 117-132): name, category,
address, description, last call and setting date are wrapped in double
quotes by the template literals; lead score (`|| 0`), website, phone, email,
email status, CEO, status and source URL are joined raw. -/
def leadCsvRow (lead : Lead) : String :=
  jsJoin ","
    ["\"" ++ lead.name ++ "\"",
     toString (jsOrInt lead.leadScore 0),
     "\"" ++ lead.category ++ "\"",
     "\"" ++ lead.address ++ "\"",
     joinCell lead.website,
     joinCell lead.phone,
     joinCell lead.email,
     joinCell lead.emailStatus,
     joinCell lead.ceo,
     "\"" ++ lead.companyDescription.getD "" ++ "\"",
     lead.status,
     "\"" ++ lead.lastCallResult.getD "" ++ "\"",
     "\"" ++ lead.appointmentDate.getD "" ++ "\"",
     joinCell lead.sourceUrl]

/-- `csvContent` (lines 115-133): the header row then one row per filtered
lead, newline-joined. -/
def csvContent (filteredLeads : List Lead) : String :=
  jsJoin "\n" (jsJoin "," csvHeaders :: filteredLeads.map leadCsvRow)

/-- The characters matched by the JS regex `\s` (ASCII part; the download
name replacement `project.name.replace(/\s+/g, '_')`). -/
def isJsWhitespace (c : Char) : Bool :=
  c = ' ' || c = '\t' || c = '\n' || c = '\r' || c = '\x0b' || c = '\x0c'

/-- `replace(/\s+/g, '_')`, one character at a time: the flag records
whether the previous character was whitespace (i.e. a run is open); the first
whitespace of a run emits one underscore, the rest of the run emits
nothing. -/
def replaceWSAux : Bool → List Char → List Char
  | _, [] => []
  | prevWS, c :: cs =>
      if isJsWhitespace c then
        if prevWS then replaceWSAux true cs else '_' :: replaceWSAux true cs
      else c :: replaceWSAux false cs

/-- `replace(/\s+/g, '_')`: every maximal whitespace run becomes one
underscore. -/
def replaceWSRuns (cs : List Char) : List Char :=
  replaceWSAux false cs

/-- The download file name (line 139). -/
def exportFileName (project : Project) : String :=
  String.mk (replaceWSRuns project.name.data) ++ "_leads.csv"

/-- `handleExport`: the CSV text offered as a blob, and the download name. -/
def handleExport (project : Project) (filteredLeads : List Lead) : String × String :=
  (csvContent filteredLeads, exportFileName project)

/-- A minimal CSV field splitter: commas split fields except inside double
quotes; quote characters toggle the in-quotes flag and are not part of the
field content.  Used to state that the export preserves column alignment. -/
def csvSplitAux : List Char → Bool → List Char → List (List Char)
  | [], _, acc => [acc.reverse]
  | c :: cs, inQ, acc =>
      if c = '"' then csvSplitAux cs (!inQ) acc
      else if c = ',' && !inQ then acc.reverse :: csvSplitAux cs false []
      else csvSplitAux cs inQ (c :: acc)

/-- Split a CSV row into its field contents. -/
def csvSplit (s : String) : List String :=
  (csvSplitAux s.data false []).map String.mk

/-- A row cell: its content and whether the export wraps it in quotes. -/
def renderField : String × Bool → String
  | (s, q) => if q then "\"" ++ s ++ "\"" else s

/-- Render a full row from cells, comma-joined. -/
def renderRow (fields : List (String × Bool)) : String :=
  jsJoin "," (fields.map renderField)

/-- The fourteen cells of one exported row, in header order. -/
def leadCells (lead : Lead) : List (String × Bool) :=
  [(lead.name, true),
   (toString (jsOrInt lead.leadScore 0), false),
   (lead.category, true),
   (lead.address, true),
   (joinCell lead.website, false),
   (joinCell lead.phone, false),
   (joinCell lead.email, false),
   (joinCell lead.emailStatus, false),
   (joinCell lead.ceo, false),
   (lead.companyDescription.getD "", true),
   (lead.status, false),
   (lead.lastCallResult.getD "", true),
   (lead.appointmentDate.getD "", true),
   (joinCell lead.sourceUrl, false)]

theorem leadCsvRow_eq_renderRow (lead : Lead) :
    leadCsvRow lead = renderRow (leadCells lead) := rfl

theorem csvSplitAux_unquoted (fc : List Char)
    (h : ∀ c ∈ fc, c ≠ '"' ∧ c ≠ ',') :
    ∀ (rest acc : List Char),
      csvSplitAux (fc ++ rest) false acc = csvSplitAux rest false (fc.reverse ++ acc) := by
  induction fc with
  | nil => intro rest acc; simp
  | cons c cs ih =>
      intro rest acc
      have hc := h c (List.mem_cons_self _ _)
      simp only [List.cons_append, csvSplitAux, hc.1, hc.2, if_neg,
        decide_eq_true_eq]
      rw [if_neg (by simp [hc.1]), if_neg (by simp [hc.2])]
      simp only [List.append_eq]
      rw [ih (fun x hx => h x (List.mem_cons_of_mem _ hx)) rest (c :: acc)]
      simp

theorem csvSplitAux_quoted (fc : List Char) (h : ∀ c ∈ fc, c ≠ '"') :
    ∀ (rest acc : List Char),
      csvSplitAux (fc ++ rest) true acc = csvSplitAux rest true (fc.reverse ++ acc) := by
  induction fc with
  | nil => intro rest acc; simp
  | cons c cs ih =>
      intro rest acc
      have hc := h c (List.mem_cons_self _ _)
      simp only [List.cons_append, csvSplitAux]
      rw [if_neg (by simp [hc]), if_neg (by simp)]
      simp only [List.append_eq]
      rw [ih (fun x hx => h x (List.mem_cons_of_mem _ hx)) rest (c :: acc)]
      simp

theorem csvSplitAux_field (f : String × Bool)
    (hq : ∀ c ∈ f.1.data, c ≠ '"')
    (hu : f.2 = false → ∀ c ∈ f.1.data, c ≠ ',') :
    ∀ (rest acc : List Char),
      csvSplitAux ((renderField f).data ++ rest) false acc
        = csvSplitAux rest false (f.1.data.reverse ++ acc) := by
  intro rest acc
  rcases f with ⟨s, q⟩
  cases q
  · have : (renderField (s, false)).data = s.data := rfl
    rw [this]
    exact csvSplitAux_unquoted s.data
      (fun c hc => ⟨hq c hc, hu rfl c hc⟩) rest acc
  · have hdata : (renderField (s, true)).data = '"' :: (s.data ++ ('"' :: [])) := by
      show ("\"" ++ s ++ "\"").data = _
      simp
    rw [hdata]
    simp only [List.cons_append, List.append_assoc, List.nil_append]
    rw [show csvSplitAux ('"' :: (s.data ++ ('"' :: rest))) false acc
          = csvSplitAux (s.data ++ ('"' :: rest)) true acc from by
        simp [csvSplitAux]]
    rw [csvSplitAux_quoted s.data hq ('"' :: rest) acc]
    simp [csvSplitAux]

theorem csvSplitAux_row (f : String × Bool) (fs : List (String × Bool))
    (h : ∀ g ∈ f :: fs, (∀ c ∈ g.1.data, c ≠ '"')
          ∧ (g.2 = false → ∀ c ∈ g.1.data, c ≠ ',')) :
    ∀ acc : List Char,
      csvSplitAux ((renderRow (f :: fs)).data) false acc
        = (acc.reverse ++ f.1.data) :: fs.map (·.1.data) := by
  induction fs generalizing f with
  | nil =>
      intro acc
      have hr : (renderRow [f]).data = (renderField f).data ++ [] := by
        simp [renderRow, jsJoin]
      rw [hr, csvSplitAux_field f (h f (List.mem_cons_self _ _)).1
        (h f (List.mem_cons_self _ _)).2]
      simp [csvSplitAux]
  | cons f2 fs ih =>
      intro acc
      have hr : (renderRow (f :: f2 :: fs)).data
          = (renderField f).data ++ (',' :: (renderRow (f2 :: fs)).data) := by
        simp [renderRow, jsJoin]
      rw [hr, csvSplitAux_field f (h f (List.mem_cons_self _ _)).1
        (h f (List.mem_cons_self _ _)).2]
      rw [show csvSplitAux (',' :: (renderRow (f2 :: fs)).data) false
            (f.1.data.reverse ++ acc)
          = (f.1.data.reverse ++ acc).reverse
              :: csvSplitAux ((renderRow (f2 :: fs)).data) false [] from by
        simp [csvSplitAux]]
      rw [ih f2 (fun g hg => h g (List.mem_cons_of_mem _ hg)) []]
      simp

/-- Parsing a rendered row recovers exactly the cell contents, provided no
cell contains a double quote and no unquoted cell contains a comma.  Quoted
cells may contain commas. -/
theorem csvSplit_renderRow (f : String × Bool) (fs : List (String × Bool))
    (h : ∀ g ∈ f :: fs, (∀ c ∈ g.1.data, c ≠ '"')
          ∧ (g.2 = false → ∀ c ∈ g.1.data, c ≠ ',')) :
    csvSplit (renderRow (f :: fs)) = (f :: fs).map (·.1) := by
  show ((csvSplitAux (renderRow (f :: fs)).data false []).map String.mk) = _
  rw [csvSplitAux_row f fs h []]
  simp [List.map_map]

/-- No whitespace survives the `\s+` replacement. -/
theorem replaceWSAux_no_ws :
    ∀ (cs : List Char) (b : Bool), ∀ c ∈ replaceWSAux b cs, isJsWhitespace c = false := by
  intro cs
  induction cs with
  | nil => intro b c hc; simp [replaceWSAux] at hc
  | cons c cs ih =>
      intro b x hx
      by_cases hws : isJsWhitespace c
      · rw [replaceWSAux, if_pos hws] at hx
        cases b with
        | true => exact ih true x (by simpa using hx)
        | false =>
            rcases List.mem_cons.mp (by simpa using hx) with rfl | hmem
            · decide
            · exact ih true x hmem
      · rw [replaceWSAux, if_neg hws] at hx
        rcases List.mem_cons.mp hx with rfl | hmem
        · simpa using hws
        · exact ih false x hmem

/-- No whitespace survives the `\s+` replacement. -/
theorem replaceWSRuns_no_ws (cs : List Char) :
    ∀ c ∈ replaceWSRuns cs, isJsWhitespace c = false :=
  replaceWSAux_no_ws cs false

/-- A whitespace-free name is left unchanged by the replacement. -/
theorem replaceWSRuns_id (cs : List Char)
    (h : ∀ c ∈ cs, isJsWhitespace c = false) : replaceWSRuns cs = cs := by
  unfold replaceWSRuns
  induction cs with
  | nil => rfl
  | cons c cs ih =>
      rw [replaceWSAux, if_neg (by simp [h c (List.mem_cons_self _ _)])]
      rw [ih (fun x hx => h x (List.mem_cons_of_mem _ hx))]

/-- Modelled from the claim's words for C6 only ("every text field is
double-quoted"): the row that wraps every text cell — including website,
phone, email, email status, CEO, status and source URL — in double quotes.
`leadCsvRow` above is what the code produces. -/
def leadCsvRowAllQuoted (lead : Lead) : String :=
  jsJoin ","
    ["\"" ++ lead.name ++ "\"",
     toString (jsOrInt lead.leadScore 0),
     "\"" ++ lead.category ++ "\"",
     "\"" ++ lead.address ++ "\"",
     "\"" ++ joinCell lead.website ++ "\"",
     "\"" ++ joinCell lead.phone ++ "\"",
     "\"" ++ joinCell lead.email ++ "\"",
     "\"" ++ joinCell lead.emailStatus ++ "\"",
     "\"" ++ joinCell lead.ceo ++ "\"",
     "\"" ++ lead.companyDescription.getD "" ++ "\"",
     "\"" ++ lead.status ++ "\"",
     "\"" ++ lead.lastCallResult.getD "" ++ "\"",
     "\"" ++ lead.appointmentDate.getD "" ++ "\"",
     "\"" ++ joinCell lead.sourceUrl ++ "\""]

/-- A concrete lead with a comma in its name and a website, for C6. -/
def csvCexLead : Lead :=
  { emptyLead with name := "Acme, Inc", website := some "https://acme.example",
                   status := "New" }

/-- C6 counterexample: the exported row is not the all-text-fields-quoted row
the claim describes — the website cell (among others) is written raw. -/
theorem C6_counterexample :
    leadCsvRow csvCexLead ≠ leadCsvRowAllQuoted csvCexLead := by decide

/-- C6 (amended): the export is the fixed comma-joined header followed by one
newline-joined row per lead; in a row exactly the six free-text cells (name,
category, address, description, last call, setting date) are double-quoted
while lead score, website, phone, email, email status, CEO, status and source
URL are raw; parsing a row whose cells contain no double quote and whose raw
cells contain no comma recovers the fourteen cells in header order (quoted
cells may contain commas); and the download name is the project name with
every whitespace run replaced by an underscore, suffixed `_leads.csv`. -/
theorem C6_csv_export (project : Project) (leads : List Lead) (lead : Lead)
    (h : ∀ g ∈ leadCells lead, (∀ c ∈ g.1.data, c ≠ '"')
          ∧ (g.2 = false → ∀ c ∈ g.1.data, c ≠ ',')) :
    (handleExport project leads).1 =
      jsJoin "\n"
        ("Company Name,Lead Score,Category,Address,Website,Phone,Email,Email Status,CEO,Description,Status,Last Call,Setting Date,Source URL"
          :: leads.map leadCsvRow)
  ∧ (∀ l : Lead, leadCsvRow l = renderRow (leadCells l))
  ∧ csvSplit (leadCsvRow lead) =
      [lead.name, toString (jsOrInt lead.leadScore 0), lead.category,
       lead.address, joinCell lead.website, joinCell lead.phone,
       joinCell lead.email, joinCell lead.emailStatus, joinCell lead.ceo,
       lead.companyDescription.getD "", lead.status,
       lead.lastCallResult.getD "", lead.appointmentDate.getD "",
       joinCell lead.sourceUrl]
  ∧ (handleExport project leads).2 =
      String.mk (replaceWSRuns project.name.data) ++ "_leads.csv"
  ∧ (∀ c ∈ replaceWSRuns project.name.data, isJsWhitespace c = false)
  ∧ ((∀ c ∈ project.name.data, isJsWhitespace c = false) →
      (handleExport project leads).2 = project.name ++ "_leads.csv") := by
  refine ⟨rfl, fun l => rfl, ?_, rfl, replaceWSRuns_no_ws _, ?_⟩
  · rw [leadCsvRow_eq_renderRow]
    exact csvSplit_renderRow _ _ h
  · intro hws
    show String.mk (replaceWSRuns project.name.data) ++ "_leads.csv" = _
    rw [replaceWSRuns_id _ hws]

/-- Witness for C6 (amended): a lead whose name contains an embedded comma
still splits into the right fourteen cells, and a project name with interior
whitespace runs maps to the underscored download name. -/
theorem C6_csv_export_witness :
    csvSplit (leadCsvRow csvCexLead) =
      ["Acme, Inc", "0", "", "", "https://acme.example", "", "", "", "", "",
       "New", "", "", ""]
  ∧ (handleExport { wProject with name := "Tech  Startups Berlin" } []).2 =
      "Tech_Startups_Berlin_leads.csv" := by
  have h := C6_csv_export { wProject with name := "Tech  Startups Berlin" } []
    csvCexLead (by decide)
  exact ⟨h.2.2.1.trans (by decide), h.2.2.2.1.trans (by decide)⟩

/-! ## Loading more leads (`src/App.tsx`, `handleLoadMoreLeads`) -/

/-- JS `String.prototype.toLowerCase()`, modelled per character (Unicode
special casing is out of scope). -/
def jsToLower (s : String) : String := String.mk (s.data.map Char.toLower)

/-- A raw business-search result (the fields `handleLoadMoreLeads` reads from
`searchBusinesses` output). -/
structure RawLead where
  name : Option String
  address : Option String
  website : Option String
  phone : Option String
  rating : Option Rat
  reviewCount : Option Int
  sourceUrl : Option String
  deriving Repr, DecidableEq

/-- The per-result lead construction of `handleLoadMoreLeads` (App.tsx lines
370-390): defaults, `|| 'Unknown'` / `|| ''` / `|| null` fallbacks, then the
score computed from the partial lead itself. -/
def rawToLead (project : Project) (newId : String) (raw : RawLead) : Lead :=
  let base : Lead :=
    { id := newId,
      name := jsOrStr raw.name "Unknown",
      category := project.industry,
      address := jsOrStr raw.address "",
      website := jsOr raw.website none,
      phone := jsOr raw.phone none,
      email := none, emailStatus := none, ceo := none,
      companyDescription := none,
      status := "New", confidence := "Low", leadScore := none,
      sourceUrl := jsOr raw.sourceUrl none,
      notes := "", rating := raw.rating, reviewCount := raw.reviewCount,
      isEnriching := false, callLogs := [], lastCallResult := none,
      appointmentDate := none }
  { base with leadScore := some (calculateLeadScore base) }

/-- `handleLoadMoreLeads` (App.tsx lines 357-411), given the raw results the
search returned and a fresh-id generator: build leads, apply the
must-have-website and min-rating post-filters, drop results whose lowercased
name is already present, and append the remainder (if any). -/
def handleLoadMoreLeads (project : Project) (rawLeads : List RawLead)
    (idGen : Nat → String) : Project :=
  let newLeads := rawLeads.enum.map (fun p => rawToLead project (idGen p.1) p.2)
  let newLeads :=
    if project.filters.mustHaveWebsite then
      newLeads.filter (fun l => jsTruthyS l.website)
    else newLeads
  let newLeads :=
    if project.filters.minRating > 0 then
      newLeads.filter (fun l => project.filters.minRating ≤ l.rating.getD 0)
    else newLeads
  let existingIds := project.leads.map (fun l => jsToLower l.name)
  let newLeads := newLeads.filter (fun l => !(existingIds.contains (jsToLower l.name)))
  if newLeads.length > 0 then
    { project with leads := project.leads ++ newLeads }
  else project

/-- C7 (amended): loading more leads appends a (possibly empty) list of new
leads, none of which case-insensitively matches the name of any lead already
in the project. -/
theorem C7_loadmore_dedup (project : Project) (rawLeads : List RawLead)
    (idGen : Nat → String) :
    ∃ added : List Lead,
      (handleLoadMoreLeads project rawLeads idGen).leads = project.leads ++ added
      ∧ ∀ l' ∈ added, ∀ l ∈ project.leads, jsToLower l'.name ≠ jsToLower l.name := by
  simp only [handleLoadMoreLeads]
  set stage2 :=
    (if project.filters.minRating > 0 then
      (if project.filters.mustHaveWebsite then
        (rawLeads.enum.map (fun p => rawToLead project (idGen p.1) p.2)).filter
          (fun l => jsTruthyS l.website)
      else rawLeads.enum.map (fun p => rawToLead project (idGen p.1) p.2)).filter
        (fun l => project.filters.minRating ≤ l.rating.getD 0)
    else
      if project.filters.mustHaveWebsite then
        (rawLeads.enum.map (fun p => rawToLead project (idGen p.1) p.2)).filter
          (fun l => jsTruthyS l.website)
      else rawLeads.enum.map (fun p => rawToLead project (idGen p.1) p.2)) with hstage
  set fin := stage2.filter
    (fun l => !((project.leads.map (fun x => jsToLower x.name)).contains (jsToLower l.name)))
    with hfin
  have hprop : ∀ l' ∈ fin, ∀ l ∈ project.leads, jsToLower l'.name ≠ jsToLower l.name := by
    intro l' hl' l hl hEq
    have hmem := List.of_mem_filter hl'
    simp only [Bool.not_eq_true'] at hmem
    have hmm : jsToLower l'.name ∈ project.leads.map (fun x => jsToLower x.name) := by
      rw [hEq]
      exact List.mem_map_of_mem _ hl
    have hmem2 : (project.leads.map (fun x => jsToLower x.name)).elem (jsToLower l'.name)
        = false := hmem
    have hc := List.elem_iff.mpr hmm
    rw [hmem2] at hc
    exact Bool.false_ne_true hc
  by_cases hlen : fin.length > 0
  · refine ⟨fin, ?_, hprop⟩
    rw [if_pos hlen]
  · refine ⟨[], ?_, by intro l' hl'; cases hl'⟩
    rw [if_neg hlen, List.append_nil]

/-- Input rows for the C7 counterexample: two fresh results whose names
differ only by case. -/
def dupRaw (n : String) : RawLead :=
  { name := some n, address := none, website := none, phone := none,
    rating := none, reviewCount := none, sourceUrl := none }

/-- Project with one existing lead named "Acme" and no post-filters. -/
def cexProject7 : Project :=
  { id := "P7", name := "X", industry := "Cafe", location := "Berlin",
    filters := { minRating := 0, minReviews := 0, mustHaveWebsite := false },
    leads := [{ emptyLead with id := "x0", name := "Acme" }],
    status := "Completed" }

/-- C7 counterexample: the dedup filter only checks new results against the
leads already in the project, not against each other — one batch carrying
"Foo" and "foo" leaves the project with two case-insensitively equal names,
refuting "no two leads of the project have case-insensitively equal names". -/
theorem C7_counterexample :
    ((handleLoadMoreLeads cexProject7 [dupRaw "Foo", dupRaw "foo"]
        (fun i => toString i)).leads.map (fun l => l.name)) = ["Acme", "Foo", "foo"]
  ∧ ¬ (((handleLoadMoreLeads cexProject7 [dupRaw "Foo", dupRaw "foo"]
        (fun i => toString i)).leads.map (fun l => jsToLower l.name)).Nodup) := by
  constructor
  · rfl
  · decide

/-- Witness for C7 (amended) at a concrete project and result batch. -/
theorem C7_loadmore_dedup_witness :
    ∃ added : List Lead,
      (handleLoadMoreLeads cexProject7 [dupRaw "Bar"] (fun i => toString i)).leads
        = cexProject7.leads ++ added
      ∧ ∀ l' ∈ added, ∀ l ∈ cexProject7.leads,
          jsToLower l'.name ≠ jsToLower l.name :=
  C7_loadmore_dedup cexProject7 [dupRaw "Bar"] (fun i => toString i)
